import Mathlib

/-!
Shallow embedding of the batch operation engine of the
`github-repo-actions` CLI (src/github-repo-manager.ts, src/utils.ts,
src/types.ts), together with theorems settling the spec claims about it.

External collaborators (the GitHub REST client, the inquirer prompt
layer, host builtins such as `Date` parsing and `localeCompare`) are
modelled as explicit parameters or as response sequences supplied to the
embedded functions, so that the engine logic itself is translated
directly from the source.
-/

namespace GithubRepoActions

/-- Normalized repository record (src/types.ts). The TS field `private`
is a reserved word in Lean and is embedded as `isPrivate`. -/
structure Repository where
  id : Int
  name : String
  fullName : String
  isPrivate : Bool
  description : String
  language : String
  updatedAt : String
  size : Int
deriving DecidableEq, Repr

/-- Raw record as delivered by the remote list endpoint. The nullable
fields `description`, `language`, `updated_at` are `Option String`,
where `some ""` is the empty string and `none` is null/undefined (the TS
field `private` is again embedded as `isPrivate`). -/
structure RawRepo where
  id : Int
  name : String
  full_name : String
  isPrivate : Bool
  description : Option String
  language : Option String
  updated_at : Option String
  size : Int
deriving DecidableEq, Repr

/-- JavaScript `v || dflt` applied to a string-or-nullish value: null,
undefined and the empty string are falsy and replaced by the default;
every non-empty string is kept. -/
def jsOrString (v : Option String) (dflt : String) : String :=
  match v with
  | none => dflt
  | some s => if s = "" then dflt else s

/-- Per-record normalization performed inside `getAllRepositories`
(src/github-repo-manager.ts lines 88-97). `fetchTime` models the value
of `new Date().toISOString()` at fetch time. -/
def normalizeRepo (fetchTime : String) (repo : RawRepo) : Repository :=
  { id := repo.id
    name := repo.name
    fullName := repo.full_name
    isPrivate := repo.isPrivate
    description := jsOrString repo.description "No description"
    language := jsOrString repo.language "Unknown"
    updatedAt := jsOrString repo.updated_at fetchTime
    size := repo.size }

/-- One response of the remote list endpoint to a page fetch: a page of
raw records, or a transport failure (the thrown error caught by the
try/catch in `getAllRepositories`). -/
inductive PageResp where
  | ok (records : List RawRepo)
  | err
deriving DecidableEq, Repr

/-- One observed call to `octokit.rest.repos.listForAuthenticatedUser`:
the requested page number and `per_page` size. -/
structure FetchCall where
  page : Nat
  perPage : Nat
deriving DecidableEq, Repr

/-- The `while (hasMore)` pagination loop of `getAllRepositories`
(src/github-repo-manager.ts lines 73-102). `responses` is the sequence
of remote answers to the successive fetch calls; the result is the final
repository list paired with the trace of fetch calls made, or `none`
when the loop issues a fetch call for which no response was supplied.
A failed fetch makes the whole function return the empty list (the
try/catch at lines 72-108 discards any partial accumulation). -/
def getAllRepositoriesLoop (fetchTime : String) :
    List PageResp → Nat → List Repository → Option (List Repository × List FetchCall)
  | [], _, _ => none
  | PageResp.err :: _, page, _ => some ([], [⟨page, 100⟩])
  | PageResp.ok data :: rest, page, acc =>
    let acc2 := acc ++ data.map (normalizeRepo fetchTime)
    if data.length = 100 then
      (getAllRepositoriesLoop fetchTime rest (page + 1) acc2).map
        (fun r => (r.1, FetchCall.mk page 100 :: r.2))
    else
      some (acc2, [⟨page, 100⟩])

/-- `getAllRepositories`: the pagination loop started at page 1 with an
empty accumulator. -/
def getAllRepositories (fetchTime : String) (responses : List PageResp) :
    Option (List Repository × List FetchCall) :=
  getAllRepositoriesLoop fetchTime responses 1 []

/-- The eligibility filter of `changeVisibilityFlow`
(src/github-repo-manager.ts lines 179-181):
`repos.filter((repo) => repo.private !== isTargetPrivate)`. -/
def filterByVisibility (repos : List Repository) (isTargetPrivate : Bool) :
    List Repository :=
  repos.filter (fun repo => repo.isPrivate != isTargetPrivate)

/-- One observable effect of a batch execution loop: a remote mutation
call for a repository name together with its outcome (`success = false`
when the call threw a `MutationError`), or a blocking pacing wait of the
given number of milliseconds (`Utils.delay`). -/
inductive Event where
  | mutate (repoName : String) (success : Bool)
  | delay (ms : Nat)
deriving DecidableEq, Repr

/-- Whether an event is a remote mutation call. -/
def Event.isMutate : Event → Bool
  | mutate _ _ => true
  | delay _ => false

/-- Whether an event is a pacing delay. -/
def Event.isDelay : Event → Bool
  | mutate _ _ => false
  | delay _ => true

/-- The per-item batch execution loop shared by `changeVisibilityFlow`
(lines 229-251) and `deleteRepositoriesFlow` (lines 319-340): for each
selected name, attempt the remote mutation, catch any failure and count
it, and await a fixed delay between consecutive items but not after the
last. `ok repoName` tells whether the remote call for that name
succeeds. Returns (successCount, errorCount, trace of effects). -/
def batchLoop (ok : String → Bool) (delayMs : Nat) :
    List String → Nat × Nat × List Event
  | [] => (0, 0, [])
  | repoName :: rest =>
    let r := batchLoop ok delayMs rest
    let tailTrace := if rest.isEmpty then r.2.2 else Event.delay delayMs :: r.2.2
    if ok repoName then
      (r.1 + 1, r.2.1, Event.mutate repoName true :: tailTrace)
    else
      (r.1, r.2.1 + 1, Event.mutate repoName false :: tailTrace)

/-- The execution loop of `changeVisibilityFlow`: pacing delay 100 ms. -/
def changeVisibilityBatch (ok : String → Bool) (selectedRepos : List String) :
    Nat × Nat × List Event :=
  batchLoop ok 100 selectedRepos

/-- The execution loop of `deleteRepositoriesFlow`: pacing delay 200 ms. -/
def deleteBatch (ok : String → Bool) (selectedRepos : List String) :
    Nat × Nat × List Event :=
  batchLoop ok 200 selectedRepos

/-- An inquirer `input` prompt with a `validate` callback: inquirer
re-asks the same question until an answer passes validation, consuming
successive operator inputs; the prompt resolves with the first input
that validates, and is still pending (`none`) when no supplied input
does. -/
def promptWithValidate (validate : String → Bool) (inputs : List String) :
    Option String :=
  inputs.find? validate

/-- The `validate` callback of the deletion confirmation prompt
(src/github-repo-manager.ts lines 302-306), reduced to its boolean
outcome: only the exact literal "DELETE" is accepted. -/
def confirmDeleteValidate (input : String) : Bool :=
  input == "DELETE"

/-- Outcome of one run of `deleteRepositoriesFlow`. -/
inductive DeleteOutcome where
  | noRepos
  | noneSelected
  | awaitingConfirm
  | cancelled
  | executed (successCount errorCount : Nat) (trace : List Event)
deriving DecidableEq, Repr

/-- Number of remote delete calls issued by a flow outcome. -/
def DeleteOutcome.deleteCalls : DeleteOutcome → Nat
  | executed _ _ trace => trace.countP Event.isMutate
  | _ => 0

/-- `deleteRepositoriesFlow` (src/github-repo-manager.ts lines 260-345).
`repos` is the fetched snapshot, `selectedRepos` the checkbox answer,
`confirmInputs` the successive operator answers typed at the
confirmation prompt, and `ok` the outcome oracle of the remote delete
calls. `awaitingConfirm` is the state in which the validate loop has
rejected every supplied input and is still re-asking; the
`confirmDelete` inequality check against "DELETE" at line 310 is only reached with the
validated answer. -/
def deleteRepositoriesFlow (repos : List Repository)
    (selectedRepos : List String) (confirmInputs : List String)
    (ok : String → Bool) : DeleteOutcome :=
  if repos.length = 0 then DeleteOutcome.noRepos
  else if selectedRepos.length = 0 then DeleteOutcome.noneSelected
  else
    match promptWithValidate confirmDeleteValidate confirmInputs with
    | none => DeleteOutcome.awaitingConfirm
    | some confirmDelete =>
      if confirmDelete ≠ "DELETE" then DeleteOutcome.cancelled
      else
        let r := deleteBatch ok selectedRepos
        DeleteOutcome.executed r.1 r.2.1 r.2.2

/-- Sort keys accepted by `Utils.sortRepositories`. -/
inductive SortBy where
  | name
  | updated
  | size
deriving DecidableEq, Repr

/-- The comparator passed to `repos.sort` in `Utils.sortRepositories`
(src/utils.ts lines 32-45). `getTime` models the host builtin
`new Date(s).getTime()` and `localeCompare` models
`String.prototype.localeCompare`, both external to this repository. -/
def repoComparator (getTime : String → Int)
    (localeCompare : String → String → Int) (sortBy : SortBy)
    (a b : Repository) : Int :=
  match sortBy with
  | SortBy.name => localeCompare a.name.toLower b.name.toLower
  | SortBy.updated => getTime b.updatedAt - getTime a.updatedAt
  | SortBy.size => b.size - a.size

/-- `Utils.sortRepositories` (src/utils.ts lines 28-46). JavaScript
`Array.prototype.sort` sorts IN PLACE and returns the same array object
(stable since ES2019): the in-place mutation is embedded as state
passing, the result being (return value, contents of the input array of the caller after the call). -/
def sortRepositories (getTime : String → Int)
    (localeCompare : String → String → Int) (repos : List Repository)
    (sortBy : SortBy) : List Repository × List Repository :=
  let sorted := List.insertionSort
    (fun a b => repoComparator getTime localeCompare sortBy a b ≤ 0) repos
  (sorted, sorted)

/-- `Utils.truncateString` (src/utils.ts lines 23-26), over the character sequence of the string. JS `substring(0, maxLength - 3)` clamps a negative
end index to 0, which Nat subtraction reproduces. -/
def truncateString (str : List Char) (maxLength : Nat) : List Char :=
  if str.length ≤ maxLength then str
  else str.take (maxLength - 3) ++ ['.', '.', '.']

/-- A concrete raw record used in concrete instantiations. -/
def rawSample : RawRepo :=
  { id := 0, name := "r", full_name := "u/r", isPrivate := false
    description := none, language := none, updated_at := none, size := 0 }

/-- A concrete public repository of size 1. -/
def repoA : Repository :=
  { id := 1, name := "a", fullName := "u/a", isPrivate := false
    description := "No description", language := "Unknown"
    updatedAt := "2024-01-01T00:00:00Z", size := 1 }

/-- A concrete public repository of size 2. -/
def repoB : Repository :=
  { id := 2, name := "b", fullName := "u/b", isPrivate := false
    description := "No description", language := "Unknown"
    updatedAt := "2024-01-02T00:00:00Z", size := 2 }

/-- One step of the pagination loop on a full page: records appended,
`hasMore` stays true, the page counter advances. -/
theorem getAllRepositoriesLoop_ok_full (ft : String) (data : List RawRepo)
    (resps : List PageResp) (page : Nat) (acc : List Repository)
    (h : data.length = 100) :
    getAllRepositoriesLoop ft (PageResp.ok data :: resps) page acc =
      (getAllRepositoriesLoop ft resps (page + 1)
        (acc ++ data.map (normalizeRepo ft))).map
        (fun r => (r.1, FetchCall.mk page 100 :: r.2)) := by
  simp [getAllRepositoriesLoop, h]

/-- One step of the pagination loop on a short page: the loop
terminates with the accumulated records. -/
theorem getAllRepositoriesLoop_ok_short (ft : String) (data : List RawRepo)
    (resps : List PageResp) (page : Nat) (acc : List Repository)
    (h : data.length ≠ 100) :
    getAllRepositoriesLoop ft (PageResp.ok data :: resps) page acc =
      some (acc ++ data.map (normalizeRepo ft), [⟨page, 100⟩]) := by
  simp [getAllRepositoriesLoop, h]

/-- When the supplied pages are all full except a final short page, the
pagination loop consumes exactly those pages and returns the accumulator
extended with every record, normalized, in order. -/
theorem getAllRepositoriesLoop_success (ft : String) :
    ∀ (pages : List (List RawRepo)) (page : Nat) (acc : List Repository),
      pages ≠ [] →
      (∀ p ∈ pages.dropLast, p.length = 100) →
      (∀ p, pages.getLast? = some p → p.length < 100) →
      ∃ calls,
        getAllRepositoriesLoop ft (pages.map PageResp.ok) page acc =
          some (acc ++ pages.flatten.map (normalizeRepo ft), calls)
  | [], _, _, hne, _, _ => absurd rfl hne
  | [p], page, acc, _, _, hlast => by
    have hlt : p.length < 100 := hlast p (by simp)
    refine ⟨[⟨page, 100⟩], ?_⟩
    rw [List.map_cons, List.map_nil,
      getAllRepositoriesLoop_ok_short ft p [] page acc (Nat.ne_of_lt hlt)]
    simp
  | p :: q :: rest, page, acc, _, hdrop, hlast => by
    have hp : p.length = 100 := hdrop p (by simp)
    obtain ⟨calls, hcalls⟩ := getAllRepositoriesLoop_success ft (q :: rest)
      (page + 1) (acc ++ p.map (normalizeRepo ft)) (by simp)
      (fun r hr => hdrop r (by simp [hr]))
      (fun r hr => hlast r (by simpa using hr))
    refine ⟨⟨page, 100⟩ :: calls, ?_⟩
    rw [List.map_cons, getAllRepositoriesLoop_ok_full ft p _ page acc hp,
      hcalls]
    simp

/-- When a fetch fails after any number of full pages, the loop returns
the empty repository list, discarding everything accumulated so far. -/
theorem getAllRepositoriesLoop_err (ft : String) :
    ∀ (okPages : List (List RawRepo)) (rest : List PageResp) (page : Nat)
      (acc : List Repository),
      (∀ p ∈ okPages, p.length = 100) →
      ∃ calls,
        getAllRepositoriesLoop ft
          (okPages.map PageResp.ok ++ PageResp.err :: rest) page acc =
          some ([], calls)
  | [], rest, page, acc, _ => ⟨[⟨page, 100⟩], by simp [getAllRepositoriesLoop]⟩
  | p :: ps, rest, page, acc, hfull => by
    have hp : p.length = 100 := hfull p (by simp)
    obtain ⟨calls, hcalls⟩ := getAllRepositoriesLoop_err ft ps rest (page + 1)
      (acc ++ p.map (normalizeRepo ft)) (fun r hr => hfull r (by simp [hr]))
    exact ⟨⟨page, 100⟩ :: calls, by simp [getAllRepositoriesLoop, hp, hcalls]⟩

/-- C3: if every page fetch succeeds, `getAllRepositories` returns the
normalized records of all pages appended in order, whose length is the
sum of the page lengths; if any fetch fails mid-collection, it returns
the empty snapshot, discarding all partial results. -/
theorem aggregation_complete_or_empty (fetchTime : String) :
    (∀ pages : List (List RawRepo), pages ≠ [] →
      (∀ p ∈ pages.dropLast, p.length = 100) →
      (∀ p, pages.getLast? = some p → p.length < 100) →
      (getAllRepositories fetchTime (pages.map PageResp.ok)).map Prod.fst
          = some (pages.flatten.map (normalizeRepo fetchTime)) ∧
        (pages.flatten.map (normalizeRepo fetchTime)).length
          = (pages.map List.length).sum) ∧
    (∀ (okPages : List (List RawRepo)) (rest : List PageResp),
      (∀ p ∈ okPages, p.length = 100) →
      (getAllRepositories fetchTime
          (okPages.map PageResp.ok ++ PageResp.err :: rest)).map Prod.fst
        = some []) := by
  constructor
  · intro pages hne hdrop hlast
    obtain ⟨calls, hcalls⟩ :=
      getAllRepositoriesLoop_success fetchTime pages 1 [] hne hdrop hlast
    constructor
    · simp [getAllRepositories, hcalls]
    · rw [List.length_map, List.length_flatten]
  · intro okPages rest hfull
    obtain ⟨calls, hcalls⟩ :=
      getAllRepositoriesLoop_err fetchTime okPages rest 1 [] hfull
    simp [getAllRepositories, hcalls]

/-- Witness for C3: a single short successful page yields a 1-record
snapshot; an immediate fetch failure yields the empty snapshot. -/
theorem aggregation_complete_or_empty_witness :
    (getAllRepositories "t" [PageResp.err]).map Prod.fst = some [] ∧
    (getAllRepositories "t" [PageResp.ok [rawSample]]).map Prod.fst
      = some ([[rawSample]].flatten.map (normalizeRepo "t")) := by
  have h := aggregation_complete_or_empty "t"
  constructor
  · simpa using h.2 [] [] (by simp)
  · simpa using (h.1 [[rawSample]] (by simp) (by simp)
      (fun p hp => by simp at hp; subst hp; decide)).1

/-- A full page of 100 raw records. -/
def fullPage : List RawRepo := List.replicate 100 rawSample

/-- A short page of 37 raw records. -/
def page37 : List RawRepo := List.replicate 37 rawSample

/-- C4: pages are requested with size 100 starting at page 1 and
incrementing; fetching stops exactly at the first page shorter than
100. For pages [100, 100, 37] exactly the 3 calls (1,100) (2,100)
(3,100) occur and 237 records are returned; for pages [100, 100, 100]
a 4th call occurs (the loop demands a 4th response), and an empty 4th
page terminates it with 300 records after 4 calls. -/
theorem pagination_termination :
    (getAllRepositories "t"
        [PageResp.ok fullPage, PageResp.ok fullPage, PageResp.ok page37]).map
        (fun r => (r.1.length, r.2))
      = some (237, [⟨1, 100⟩, ⟨2, 100⟩, ⟨3, 100⟩]) ∧
    getAllRepositories "t"
        [PageResp.ok fullPage, PageResp.ok fullPage, PageResp.ok fullPage]
      = none ∧
    (getAllRepositories "t"
        [PageResp.ok fullPage, PageResp.ok fullPage, PageResp.ok fullPage,
          PageResp.ok []]).map (fun r => (r.1.length, r.2))
      = some (300, [⟨1, 100⟩, ⟨2, 100⟩, ⟨3, 100⟩, ⟨4, 100⟩]) := by
  have h100 : fullPage.length = 100 := by simp [fullPage]
  have h37 : page37.length ≠ 100 := by simp [page37]
  have h0 : ([] : List RawRepo).length ≠ 100 := by simp
  refine ⟨?_, ?_, ?_⟩
  · rw [getAllRepositories,
      getAllRepositoriesLoop_ok_full _ _ _ _ _ h100,
      getAllRepositoriesLoop_ok_full _ _ _ _ _ h100,
      getAllRepositoriesLoop_ok_short _ _ _ _ _ h37]
    simp only [Option.map_some, List.length_append, List.length_map,
      List.nil_append, fullPage, page37, List.length_replicate]
    norm_num
  · rw [getAllRepositories,
      getAllRepositoriesLoop_ok_full _ _ _ _ _ h100,
      getAllRepositoriesLoop_ok_full _ _ _ _ _ h100,
      getAllRepositoriesLoop_ok_full _ _ _ _ _ h100]
    rfl
  · rw [getAllRepositories,
      getAllRepositoriesLoop_ok_full _ _ _ _ _ h100,
      getAllRepositoriesLoop_ok_full _ _ _ _ _ h100,
      getAllRepositoriesLoop_ok_full _ _ _ _ _ h100,
      getAllRepositoriesLoop_ok_short _ _ _ _ _ h0]
    simp only [Option.map_some, List.length_append, List.length_map,
      List.length_nil, List.nil_append, List.map_nil, fullPage,
      List.length_replicate]
    norm_num

/-- C2 counterexample: a non-matching confirmation input does not cancel
the deletion flow. With the single operator input "delete" the flow is
still re-asking (the inquirer validate loop), not cancelled; and when the
operator follows the rejected "delete" with "DELETE", the flow proceeds
to issue a remote delete call. -/
theorem delete_confirmation_not_cancelled :
    deleteRepositoriesFlow [repoA] ["a"] ["delete"] (fun _ => true)
        = DeleteOutcome.awaitingConfirm ∧
    deleteRepositoriesFlow [repoA] ["a"] ["delete"] (fun _ => true)
        ≠ DeleteOutcome.cancelled ∧
    (deleteRepositoriesFlow [repoA] ["a"] ["delete", "DELETE"]
        (fun _ => true)).deleteCalls = 1 := by
  refine ⟨?_, ?_, ?_⟩ <;> decide

/-- C2 amended: as long as no operator input is exactly "DELETE", the
deletion flow never reaches execution and issues zero remote delete
calls — the confirmation prompt keeps re-asking instead of cancelling. -/
theorem delete_confirmation_gate (repos : List Repository)
    (selectedRepos confirmInputs : List String) (ok : String → Bool)
    (h : "DELETE" ∉ confirmInputs) :
    (deleteRepositoriesFlow repos selectedRepos confirmInputs ok).deleteCalls
        = 0 ∧
    ∀ s e trace, deleteRepositoriesFlow repos selectedRepos confirmInputs ok
        ≠ DeleteOutcome.executed s e trace := by
  have hfind : promptWithValidate confirmDeleteValidate confirmInputs
      = none := by
    rw [promptWithValidate, List.find?_eq_none]
    intro x hx hbeq
    exact h (eq_of_beq hbeq ▸ hx)
  by_cases h1 : repos.length = 0
  · simp [deleteRepositoriesFlow, h1, DeleteOutcome.deleteCalls]
  · by_cases h2 : selectedRepos.length = 0
    · simp [deleteRepositoriesFlow, h1, h2, DeleteOutcome.deleteCalls]
    · simp [deleteRepositoriesFlow, h1, h2, hfind, DeleteOutcome.deleteCalls]

/-- Witness for the amended C2 at a concrete flow run. -/
theorem delete_confirmation_gate_witness :
    (deleteRepositoriesFlow [repoA] ["a"] ["abort"]
        (fun _ => true)).deleteCalls = 0 ∧
    deleteRepositoriesFlow [repoA] ["a"] ["abort"] (fun _ => true)
        ≠ DeleteOutcome.executed 1 0 [Event.mutate "a" true] := by
  have h := delete_confirmation_gate [repoA] ["a"] ["abort"]
    (fun _ => true) (by decide)
  exact ⟨h.1, h.2 1 0 [Event.mutate "a" true]⟩

/-- C8 counterexample: `Utils.sortRepositories` sorts via
`Array.prototype.sort`, which reorders the array of the caller in place:
after sorting two repositories of sizes 1 and 2 by size, the input
array no longer holds its original order. -/
theorem sortRepositories_mutates_counterexample :
    (sortRepositories (fun _ => 0) (fun _ _ => 0) [repoA, repoB]
        SortBy.size).2 ≠ [repoA, repoB] := by
  decide

/-- C8 amended: `sortRepositories` returns the records in sorted order,
but in place: after the call the input array holds exactly the returned
(sorted) sequence, which is a permutation of the original records — the
records themselves are unchanged, only the list order is mutated. -/
theorem sortRepositories_in_place (getTime : String → Int)
    (localeCompare : String → String → Int) (repos : List Repository)
    (sortBy : SortBy) :
    (sortRepositories getTime localeCompare repos sortBy).2
        = (sortRepositories getTime localeCompare repos sortBy).1 ∧
    ((sortRepositories getTime localeCompare repos sortBy).1).Perm repos :=
  ⟨rfl, List.perm_insertionSort _ repos⟩

/-- Trace shape of one batch iteration: a mutation event recording the
outcome of the remote call, then a pacing delay unless this was the last
item. -/
theorem batchLoop_trace_cons (ok : String → Bool) (delayMs : Nat)
    (x : String) (rest : List String) :
    (batchLoop ok delayMs (x :: rest)).2.2 =
      Event.mutate x (ok x) ::
        (if rest.isEmpty then (batchLoop ok delayMs rest).2.2
         else Event.delay delayMs :: (batchLoop ok delayMs rest).2.2) := by
  by_cases h : ok x <;> simp [batchLoop, h]

/-- Counter shape of one batch iteration. -/
theorem batchLoop_counts_cons (ok : String → Bool) (delayMs : Nat)
    (x : String) (rest : List String) :
    (batchLoop ok delayMs (x :: rest)).1
        = (batchLoop ok delayMs rest).1 + (if ok x then 1 else 0) ∧
      (batchLoop ok delayMs (x :: rest)).2.1
        = (batchLoop ok delayMs rest).2.1 + (if ok x then 0 else 1) := by
  by_cases h : ok x <;> simp [batchLoop, h]

/-- The success counter equals the number of items whose remote call
succeeds. -/
theorem batchLoop_success_count (ok : String → Bool) (delayMs : Nat)
    (items : List String) :
    (batchLoop ok delayMs items).1 = items.countP ok := by
  induction items with
  | nil => rfl
  | cons x rest ih =>
    rw [(batchLoop_counts_cons ok delayMs x rest).1, ih, List.countP_cons]

/-- The error counter equals the number of items whose remote call
fails. -/
theorem batchLoop_error_count (ok : String → Bool) (delayMs : Nat)
    (items : List String) :
    (batchLoop ok delayMs items).2.1
      = items.countP (fun repoName => !(ok repoName)) := by
  induction items with
  | nil => rfl
  | cons x rest ih =>
    rw [(batchLoop_counts_cons ok delayMs x rest).2, ih, List.countP_cons]
    by_cases h : ok x <;> simp [h]

/-- Success and failure counts always partition the item count. -/
theorem countP_ok_add_countP_not (ok : String → Bool) (items : List String) :
    items.countP ok + items.countP (fun repoName => !(ok repoName))
      = items.length := by
  induction items with
  | nil => rfl
  | cons x rest ih =>
    by_cases h : ok x <;> simp [List.countP_cons, h] <;> omega

/-- Every item of the batch gives rise to exactly one mutation call. -/
theorem batchLoop_mutate_count (ok : String → Bool) (delayMs : Nat)
    (items : List String) :
    ((batchLoop ok delayMs items).2.2).countP Event.isMutate
      = items.length := by
  induction items with
  | nil => rfl
  | cons x rest ih =>
    rw [batchLoop_trace_cons]
    cases rest with
    | nil => simp [Event.isMutate, List.countP_cons, batchLoop]
    | cons y rs =>
      simp [Event.isMutate, List.countP_cons, ih]

/-- A batch of N items performs exactly N - 1 pacing delays. -/
theorem batchLoop_delay_count (ok : String → Bool) (delayMs : Nat)
    (items : List String) :
    ((batchLoop ok delayMs items).2.2).countP Event.isDelay
      = items.length - 1 := by
  induction items with
  | nil => rfl
  | cons x rest ih =>
    rw [batchLoop_trace_cons]
    cases rest with
    | nil => simp [Event.isDelay, List.countP_cons, batchLoop]
    | cons y rs =>
      simp [Event.isDelay, List.countP_cons, ih]

/-- Every pacing delay of a batch trace has the configured duration. -/
theorem batchLoop_delay_ms (ok : String → Bool) (delayMs : Nat)
    (items : List String) :
    ∀ e ∈ (batchLoop ok delayMs items).2.2,
      Event.isDelay e → e = Event.delay delayMs := by
  induction items with
  | nil =>
    intro e he
    simp [batchLoop] at he
  | cons x rest ih =>
    simp only [batchLoop_trace_cons]
    intro e he hd
    rcases List.mem_cons.mp he with h | h
    · subst h
      simp [Event.isDelay] at hd
    · by_cases hre : rest.isEmpty
      · rw [if_pos hre] at h
        exact ih e h hd
      · rw [if_neg hre] at h
        rcases List.mem_cons.mp h with h2 | h2
        · subst h2
          rfl
        · exact ih e h2 hd

/-- C1: for a batch of N selected names in which exactly k remote
mutation calls fail, the loop attempts all N items (N mutation events in
the trace), and the final summary records exactly N - k successes and k
failures; the loop is a total function of the per-item outcomes, so no
per-item failure propagates past it. -/
theorem batch_count_law (items : List String) (ok : String → Bool)
    (delayMs k : Nat)
    (hk : items.countP (fun repoName => !(ok repoName)) = k) :
    (batchLoop ok delayMs items).1 = items.length - k ∧
    (batchLoop ok delayMs items).2.1 = k ∧
    (batchLoop ok delayMs items).1 + (batchLoop ok delayMs items).2.1
      = items.length ∧
    ((batchLoop ok delayMs items).2.2).countP Event.isMutate
      = items.length := by
  have hs := batchLoop_success_count ok delayMs items
  have he := batchLoop_error_count ok delayMs items
  have hp := countP_ok_add_countP_not ok items
  refine ⟨?_, ?_, ?_, batchLoop_mutate_count ok delayMs items⟩ <;> omega

/-- Witness for C1: a 3-item batch in which exactly the middle item
fails. -/
theorem batch_count_law_witness :
    (batchLoop (fun repoName => repoName != "b") 100 ["a", "b", "c"]).1 = 3 - 1 ∧
    (batchLoop (fun repoName => repoName != "b") 100 ["a", "b", "c"]).2.1 = 1 := by
  have h := batch_count_law ["a", "b", "c"]
    (fun repoName => repoName != "b") 100 1 (by decide)
  exact ⟨h.1, h.2.1⟩

/-- C7: during batch execution a fixed blocking delay is awaited between
consecutive items but not after the last — N - 1 delay events for N
items — and its duration is 100 ms in the visibility-change loop and
200 ms in the deletion loop. -/
theorem inter_item_pacing (okV okD : String → Bool)
    (itemsV itemsD : List String) :
    (((changeVisibilityBatch okV itemsV).2.2).countP Event.isDelay
        = itemsV.length - 1 ∧
      ∀ e ∈ (changeVisibilityBatch okV itemsV).2.2,
        Event.isDelay e → e = Event.delay 100) ∧
    (((deleteBatch okD itemsD).2.2).countP Event.isDelay
        = itemsD.length - 1 ∧
      ∀ e ∈ (deleteBatch okD itemsD).2.2,
        Event.isDelay e → e = Event.delay 200) :=
  ⟨⟨batchLoop_delay_count okV 100 itemsV, batchLoop_delay_ms okV 100 itemsV⟩,
    ⟨batchLoop_delay_count okD 200 itemsD, batchLoop_delay_ms okD 200 itemsD⟩⟩

/-- Witness for C7: a 2-item visibility batch has exactly one delay and
it is the 100 ms wait; the delay of a 2-item deletion batch is 200 ms. -/
theorem inter_item_pacing_witness :
    ((changeVisibilityBatch (fun _ => true) ["a", "b"]).2.2).countP
        Event.isDelay = 2 - 1 ∧
    Event.delay 100 = Event.delay 100 ∧
    ((deleteBatch (fun _ => true) ["a", "b"]).2.2).countP
        Event.isDelay = 2 - 1 ∧
    Event.delay 200 = Event.delay 200 := by
  have h := inter_item_pacing (fun _ => true) (fun _ => true)
    ["a", "b"] ["a", "b"]
  exact ⟨h.1.1, h.1.2 (Event.delay 100) (by decide) (by decide),
    h.2.1, h.2.2 (Event.delay 200) (by decide) (by decide)⟩

/-- C5: for every snapshot and target visibility, the eligibility filter
excludes every record whose `isPrivate` flag already equals the target,
keeps every other record exactly as often as it occurs in the snapshot,
and preserves snapshot order (the result is a sublist). -/
theorem filterByVisibility_correct (repos : List Repository) (target : Bool) :
    (∀ r ∈ filterByVisibility repos target, r.isPrivate ≠ target) ∧
    (∀ r : Repository, (filterByVisibility repos target).count r =
      if r.isPrivate = target then 0 else repos.count r) ∧
    (filterByVisibility repos target).Sublist repos := by
  refine ⟨?_, ?_, List.filter_sublist _⟩
  · intro r hr
    have h := (List.mem_filter.mp hr).2
    simpa using h
  · intro r
    by_cases h : r.isPrivate = target
    · rw [if_pos h]
      refine List.count_eq_zero.mpr (fun hmem => ?_)
      have h2 := (List.mem_filter.mp hmem).2
      simp [h] at h2
    · rw [if_neg h]
      exact List.count_filter (by simpa using h)

/-- Witness for C5 at a concrete snapshot. -/
theorem filterByVisibility_correct_witness :
    repoA.isPrivate ≠ true ∧
    (filterByVisibility [repoA] true).count repoA = [repoA].count repoA ∧
    (filterByVisibility [repoA] true).Sublist [repoA] := by
  have h := filterByVisibility_correct [repoA] true
  refine ⟨h.1 repoA (by decide), ?_, h.2.2⟩
  have h2 := h.2.1 repoA
  simpa [repoA] using h2

/-- C6: filtering a snapshot in which every record already has
`isPrivate` equal to the target yields no eligible candidates, so a
second identical visibility-change run after a fully successful one is
a no-op. -/
theorem filterByVisibility_idempotent (repos : List Repository)
    (target : Bool) (h : ∀ r ∈ repos, r.isPrivate = target) :
    filterByVisibility repos target = [] := by
  simp only [filterByVisibility, List.filter_eq_nil_iff]
  intro r hr
  simp [h r hr]

/-- Witness for C6 at a concrete all-private snapshot. -/
theorem filterByVisibility_idempotent_witness :
    filterByVisibility [{ repoA with isPrivate := true }] true = [] :=
  filterByVisibility_idempotent _ true (by decide)

/-- C9: normalization replaces a `description` or `language` that is
null/undefined or the empty string with the sentinels "No description"
and "Unknown", keeps any non-empty string, and makes an empty-string
value indistinguishable from an absent one. -/
theorem normalizeRepo_falsy (fetchTime : String) (raw : RawRepo) :
    ((raw.description = none ∨ raw.description = some "") →
      (normalizeRepo fetchTime raw).description = "No description") ∧
    ((raw.language = none ∨ raw.language = some "") →
      (normalizeRepo fetchTime raw).language = "Unknown") ∧
    (∀ s, s ≠ "" → raw.description = some s →
      (normalizeRepo fetchTime raw).description = s) ∧
    (∀ s, s ≠ "" → raw.language = some s →
      (normalizeRepo fetchTime raw).language = s) ∧
    normalizeRepo fetchTime
        { raw with description := some "", language := some "" } =
      normalizeRepo fetchTime
        { raw with description := none, language := none } := by
  refine ⟨?_, ?_, ?_, ?_, ?_⟩
  · rintro (h | h) <;> simp [normalizeRepo, jsOrString, h]
  · rintro (h | h) <;> simp [normalizeRepo, jsOrString, h]
  · intro s hs h
    simp [normalizeRepo, jsOrString, h, hs]
  · intro s hs h
    simp [normalizeRepo, jsOrString, h, hs]
  · simp [normalizeRepo, jsOrString]

/-- Witness for C9 at concrete raw records. -/
theorem normalizeRepo_falsy_witness :
    (normalizeRepo "t" rawSample).description = "No description" ∧
    (normalizeRepo "t" { rawSample with language := some "" }).language
      = "Unknown" ∧
    (normalizeRepo "t" { rawSample with description := some "tool" }).description
      = "tool" := by
  refine ⟨(normalizeRepo_falsy "t" rawSample).1 (Or.inl rfl), ?_, ?_⟩
  · exact (normalizeRepo_falsy "t" _).2.1 (Or.inr rfl)
  · exact (normalizeRepo_falsy "t" _).2.2.1 "tool" (by decide) rfl

/-- C10: `truncateString` keeps a string whose length is at most the
bound, otherwise yields the first `maxLength - 3` characters followed by
"..."; the result has length exactly `maxLength` when `maxLength ≥ 3`,
but for `maxLength < 3` the result is "..." of length 3, exceeding the
bound. -/
theorem truncateString_shape (s : List Char) (maxLength : Nat) :
    (s.length ≤ maxLength → truncateString s maxLength = s) ∧
    (maxLength < s.length →
      truncateString s maxLength = s.take (maxLength - 3) ++ ['.', '.', '.'] ∧
      (3 ≤ maxLength → (truncateString s maxLength).length = maxLength) ∧
      (maxLength < 3 → truncateString s maxLength = ['.', '.', '.'])) := by
  constructor
  · intro h
    simp [truncateString, h]
  · intro h
    have hnot : ¬ s.length ≤ maxLength := by omega
    refine ⟨by simp [truncateString, hnot], ?_, ?_⟩
    · intro h3
      have htake : (s.take (maxLength - 3)).length = maxLength - 3 := by
        rw [List.length_take]
        omega
      simp [truncateString, hnot, htake]
      omega
    · intro h3
      have h0 : maxLength - 3 = 0 := by omega
      simp [truncateString, hnot, h0]

/-- Witness for C10 at concrete strings and bounds. -/
theorem truncateString_shape_witness :
    truncateString ['a', 'b'] 5 = ['a', 'b'] ∧
    truncateString ['a', 'b', 'c', 'd', 'e', 'f'] 5
      = (['a', 'b', 'c', 'd', 'e', 'f'].take 2) ++ ['.', '.', '.'] ∧
    (truncateString ['a', 'b', 'c', 'd', 'e', 'f'] 5).length = 5 ∧
    truncateString ['a', 'b', 'c'] 2 = ['.', '.', '.'] := by
  refine ⟨(truncateString_shape ['a', 'b'] 5).1 (by decide), ?_, ?_, ?_⟩
  · exact ((truncateString_shape ['a', 'b', 'c', 'd', 'e', 'f'] 5).2
      (by decide)).1
  · exact ((truncateString_shape ['a', 'b', 'c', 'd', 'e', 'f'] 5).2
      (by decide)).2.1 (by decide)
  · exact ((truncateString_shape ['a', 'b', 'c'] 2).2 (by decide)).2.2
      (by decide)

end GithubRepoActions
